import Mathlib

/-!
Verification development for the codex-companion reverse proxy.

The Go source is shallowly embedded: SQLite tables become lists of rows,
`time.Time` becomes integer nanoseconds (`time.Before` is `<`, `time.After`
is `>`, `time.Until t` is `t - now`), network effects become explicit
environment functions, and each Go function of the core becomes a pure Lean
function on those states.  NULL-able SQL columns are `Option` values; the Go
structs materialised by `List`/`Get` read NULL back as the zero value, as in
`internal/account` (`manager.go`).

Neither SQLite's `ORDER BY priority` nor Go's `sort.Slice` specifies the
relative order of entries with equal priority.  The executable definitions
fix one concrete resolution of that freedom (an insertion sort) so that
counterexamples and witnesses can be computed; every theorem about the
selection order instead quantifies over an arbitrary priority-sorted
permutation of the pool, which covers whatever order the two layers
actually produce.
-/

/-- Nanoseconds in a minute (`time.Minute`). -/
def minuteNs : Int := 60000000000

/-- Nanoseconds in an hour (`time.Hour`). -/
def hourNs : Int := 3600000000000

/-- Nanoseconds in a day (24 hours). -/
def dayNs : Int := 86400000000000

/-- Go `account.AccountType`: `APIKeyAccount` (static key) or
`ChatGPTAccount` (interactive login). -/
inductive AccountType
  | apiKey
  | chatGPT
deriving DecidableEq, Repr

/-- One row of the SQLite `accounts` table.  Columns that the INSERT
statements leave unset are NULL, hence `Option`. -/
structure Row where
  id : Int
  name : String
  typ : AccountType
  apiKey : Option String
  refreshToken : Option String
  accessToken : Option String
  tokenExpiresAt : Option Int
  accountID : Option String
  baseURL : Option String
  priority : Int
  exhausted : Bool
  resetAt : Option Int
deriving DecidableEq, Repr

/-- Go `account.Account`: the in-memory struct scanned from a row, with NULL
columns read back as zero values (empty string / zero time). -/
structure Account where
  id : Int
  accountID : String
  name : String
  typ : AccountType
  apiKey : String
  baseURL : String
  refreshToken : String
  accessToken : String
  tokenExpiresAt : Int
  priority : Int
  exhausted : Bool
  resetAt : Int
deriving DecidableEq, Repr

/-- Row scan as in `Manager.List` / `Manager.Get`: NULL becomes the zero
value of the Go field. -/
def Row.toAccount (r : Row) : Account :=
  { id := r.id
    accountID := r.accountID.getD ""
    name := r.name
    typ := r.typ
    apiKey := r.apiKey.getD ""
    baseURL := r.baseURL.getD ""
    refreshToken := r.refreshToken.getD ""
    accessToken := r.accessToken.getD ""
    tokenExpiresAt := r.tokenExpiresAt.getD 0
    priority := r.priority
    exhausted := r.exhausted
    resetAt := r.resetAt.getD 0 }

/-- The `accounts` table plus the AUTOINCREMENT counter. -/
structure AccountDB where
  rows : List Row
  nextId : Int
deriving DecidableEq, Repr

/-- Errors of the account store.  `duplicate` is the distinguished
`account.ErrDuplicate`; `generic` stands for any other database failure. -/
inductive StoreErr
  | duplicate
  | generic (msg : String)
deriving DecidableEq, Repr

/-- One concrete priority sort standing in for the SQL `ORDER BY priority`
and the scheduler's `sort.Slice`.  Both leave the order of equal-priority
entries unspecified, so this executable choice is used only where the tie
order does not matter (or in pools without ties); selection-order theorems
quantify over every priority-sorted permutation instead. -/
def sortByPriority (l : List Account) : List Account :=
  List.insertionSort (fun a b : Account => a.priority ≤ b.priority) l

/-- Go `Manager.List`: all accounts ordered by priority. -/
def Manager.list (db : AccountDB) : List Account :=
  sortByPriority (db.rows.map Row.toAccount)

/-- First row with the given id, as the SQL `WHERE id=?` single-row read. -/
def findRow : List Row → Int → Option Row
  | [], _ => none
  | r :: rest, id => if r.id = id then some r else findRow rest id

/-- Go `Manager.Get`: the account with the given id, or `none`. -/
def Manager.get (db : AccountDB) (id : Int) : Option Account :=
  (findRow db.rows id).map Row.toAccount

/-- Go `Manager.AddAPIKey`: duplicate check on the `api_key` column, then
INSERT of (name, type, api_key, base_url, priority, exhausted=0); the other
columns stay NULL.  Returns the Go-constructed `Account` literal. -/
def Manager.addAPIKey (db : AccountDB) (name key baseURL : String) (priority : Int) :
    Except StoreErr (Account × AccountDB) :=
  if db.rows.any (fun r => decide (r.apiKey = some key)) then
    .error .duplicate
  else
    let row : Row :=
      { id := db.nextId, name := name, typ := .apiKey, apiKey := some key,
        refreshToken := none, accessToken := none, tokenExpiresAt := none,
        accountID := none, baseURL := some baseURL, priority := priority,
        exhausted := false, resetAt := none }
    .ok ({ id := db.nextId, accountID := "", name := name, typ := .apiKey,
           apiKey := key, baseURL := baseURL, refreshToken := "",
           accessToken := "", tokenExpiresAt := 0, priority := priority,
           exhausted := false, resetAt := 0 },
         { rows := db.rows ++ [row], nextId := db.nextId + 1 })

/-- Go `Manager.AddChatGPT`: duplicate check on the `refresh_token` column,
then INSERT of (name, type, refresh_token, account_id, priority,
exhausted=0); the other columns stay NULL. -/
def Manager.addChatGPT (db : AccountDB) (name refreshToken accountID : String) (priority : Int) :
    Except StoreErr (Account × AccountDB) :=
  if db.rows.any (fun r => decide (r.refreshToken = some refreshToken)) then
    .error .duplicate
  else
    let row : Row :=
      { id := db.nextId, name := name, typ := .chatGPT, apiKey := none,
        refreshToken := some refreshToken, accessToken := none,
        tokenExpiresAt := none, accountID := some accountID, baseURL := none,
        priority := priority, exhausted := false, resetAt := none }
    .ok ({ id := db.nextId, accountID := accountID, name := name, typ := .chatGPT,
           apiKey := "", baseURL := "", refreshToken := refreshToken,
           accessToken := "", tokenExpiresAt := 0, priority := priority,
           exhausted := false, resetAt := 0 },
         { rows := db.rows ++ [row], nextId := db.nextId + 1 })

/-- A full-row UPDATE writes every column with the in-memory values, so NULLs
become concrete zero values, as in Go `Manager.Update`. -/
def rowOfAccount (a : Account) : Row :=
  { id := a.id, name := a.name, typ := a.typ, apiKey := some a.apiKey,
    refreshToken := some a.refreshToken, accessToken := some a.accessToken,
    tokenExpiresAt := some a.tokenExpiresAt, accountID := some a.accountID,
    baseURL := some a.baseURL, priority := a.priority,
    exhausted := a.exhausted, resetAt := some a.resetAt }

/-- Go `Manager.Update`: replace every row whose id matches. -/
def Manager.update (db : AccountDB) (a : Account) : AccountDB :=
  { db with rows := db.rows.map (fun r => if r.id = a.id then rowOfAccount a else r) }

/-- Go `Manager.MarkExhausted`: `UPDATE accounts SET exhausted=1, reset_at=?`. -/
def Manager.markExhausted (db : AccountDB) (id : Int) (resetAt : Int) : AccountDB :=
  { db with rows := db.rows.map (fun r =>
      if r.id = id then { r with exhausted := true, resetAt := some resetAt } else r) }

/-- Go `Manager.Reactivate`: `UPDATE accounts SET exhausted=0, reset_at=NULL`. -/
def Manager.reactivate (db : AccountDB) (id : Int) : AccountDB :=
  { db with rows := db.rows.map (fun r =>
      if r.id = id then { r with exhausted := false, resetAt := none } else r) }

/-- Outcome of one POST to the OAuth token endpoint
(`auth.ExchangeRefreshToken`): either the decoded response fields or a
failure (transport error, non-200 status, or undecodable body). -/
inductive ExchangeResult
  | ok (accessToken refreshToken : String) (expiresInSec : Int)
  | err
deriving DecidableEq, Repr

/-- The token endpoint as an environment, keyed by the refresh token sent. -/
def TokenEnv := String → ExchangeResult

/-- The gate of Go `auth.Refresh` opens (a POST happens) iff the account is a
ChatGPT account and `time.Until(TokenExpiresAt) ≤ time.Minute`. -/
def Auth.refreshGateOpen (now : Int) (a : Account) : Bool :=
  decide (a.typ = .chatGPT) && !decide (a.tokenExpiresAt - now > minuteNs)

/-- Go `auth.Refresh`: no-op for API-key accounts and for tokens expiring
more than a minute from now; otherwise exchange the refresh token, and on
success update the account (rotating the refresh token when one is returned,
setting `TokenExpiresAt = now + expiresIn`) and persist it via `Update`. -/
def Auth.refresh (env : TokenEnv) (now : Int) (db : AccountDB) (a : Account) :
    Except Unit (Account × AccountDB) :=
  if a.typ ≠ .chatGPT then .ok (a, db)
  else if a.tokenExpiresAt - now > minuteNs then .ok (a, db)
  else
    match env a.refreshToken with
    | .err => .error ()
    | .ok tok rt sec =>
      let a' : Account :=
        { a with accessToken := tok,
                 refreshToken := if rt ≠ "" then rt else a.refreshToken,
                 tokenExpiresAt := now + sec * 1000000000 }
      .ok (a', Manager.update db a')

/-- Number of POSTs to the token endpoint made by one `auth.Refresh` call:
one iff the gate opens (the POST happens whether or not it succeeds). -/
def Auth.refreshPosts (now : Int) (a : Account) : Nat :=
  if Auth.refreshGateOpen now a then 1 else 0

/-- A credential is usable in the sense of the scheduler's skip test: not
exhausted, or exhausted with `reset_at` not in the future. -/
def usableB (now : Int) (a : Account) : Bool :=
  !(a.exhausted && decide (now < a.resetAt))

/-- The selection loop of Go `Scheduler.Next` over the sorted snapshot:
skip exhausted entries whose reset time is in the future, attempt a refresh
for ChatGPT accounts (skipping on failure), return the first survivor. -/
def Scheduler.nextGo (env : TokenEnv) (now : Int) (db : AccountDB) :
    List Account → Except String (Account × AccountDB)
  | [] => .error "no accounts available"
  | a :: rest =>
    if a.exhausted && decide (now < a.resetAt) then
      Scheduler.nextGo env now db rest
    else if a.typ = .chatGPT then
      match Auth.refresh env now db a with
      | .error _ => Scheduler.nextGo env now db rest
      | .ok (a', db') => .ok (a', db')
    else
      .ok (a, db)

/-- Go `Scheduler.Next`: list the accounts, sort by priority, run the
selection loop. -/
def Scheduler.next (env : TokenEnv) (now : Int) (db : AccountDB) :
    Except String (Account × AccountDB) :=
  Scheduler.nextGo env now db (sortByPriority (Manager.list db))

/-- POSTs to the token endpoint performed during the selection loop. -/
def Scheduler.nextGoPosts (env : TokenEnv) (now : Int) (db : AccountDB) :
    List Account → Nat
  | [] => 0
  | a :: rest =>
    if a.exhausted && decide (now < a.resetAt) then
      Scheduler.nextGoPosts env now db rest
    else if a.typ = .chatGPT then
      Auth.refreshPosts now a +
        (match Auth.refresh env now db a with
         | .error _ => Scheduler.nextGoPosts env now db rest
         | .ok _ => 0)
    else 0

/-- POSTs to the token endpoint performed by one `Scheduler.Next` call. -/
def Scheduler.nextPosts (env : TokenEnv) (now : Int) (db : AccountDB) : Nat :=
  Scheduler.nextGoPosts env now db (sortByPriority (Manager.list db))

/-- One step of the reactivation sweep: reactivate the account if the
snapshot shows it exhausted with `now` strictly after its reset time
(`now.After(a.ResetAt)` in Go `Scheduler.reactivate`). -/
def Scheduler.reactivateStep (now : Int) (db : AccountDB) (a : Account) : AccountDB :=
  if a.exhausted && decide (now > a.resetAt) then Manager.reactivate db a.id else db

/-- One tick of Go `Scheduler.reactivate`: list the accounts and apply the
step to each. -/
def Scheduler.reactivateTick (now : Int) (db : AccountDB) : AccountDB :=
  (Manager.list db).foldl (Scheduler.reactivateStep now) db

/-- JSON values as far as the proxy manipulates them: the rewrite code only
ever writes booleans and a string array and never inspects the client's own
values, so every other JSON value is kept opaque behind `jother`. -/
inductive JVal
  | jnull
  | jbool (b : Bool)
  | jstr (s : String)
  | jnum (n : Int)
  | jstrArr (xs : List String)
  | jother (tag : Nat)
deriving DecidableEq, Repr

/-- A JSON object as Go materialises it into `map[string]any`: an
association list with pairwise distinct keys. -/
abbrev JObj := List (String × JVal)

/-- Go map read `m[k]`. -/
def jget : JObj → String → Option JVal
  | [], _ => none
  | p :: rest, k => if p.1 = k then some p.2 else jget rest k

/-- Go map write `m[k] = v`: replace the entry in place or append it. -/
def jset : JObj → String → JVal → JObj
  | [], k, v => [(k, v)]
  | (k', v') :: rest, k, v =>
    if k' = k then (k, v) :: rest else (k', v') :: jset rest k v

/-- Go `delete(m, k)`. -/
def jdel (m : JObj) (k : String) : JObj :=
  m.filter (fun p => decide (p.1 ≠ k))

/-- The client body bytes, abstracted by the outcome of Go
`json.Unmarshal(body, &m)` with `m : map[string]any`:
`empty` (length zero, the rewrite is skipped), `notObj` (Unmarshal returns
an error: not valid JSON, or a non-object non-null value), `nullLit` (the
JSON literal null: Unmarshal succeeds and leaves the map nil), or `obj` (a
JSON object). -/
inductive JBody
  | empty
  | notObj (bs : List Nat)
  | nullLit (bs : List Nat)
  | obj (fs : JObj)
deriving DecidableEq, Repr

/-- The outgoing body: either the client bytes forwarded unchanged or
`json.Marshal` of the rewritten map. -/
inductive OutBody
  | raw (b : JBody)
  | marshalled (fs : JObj)
deriving DecidableEq, Repr

/-- The body normalisation of `proxy.ServeHTTP` (handler.go lines 83-108):
non-empty bodies that unmarshal get their `store`/`include` fields rewritten
per account type; `none` models the Go panic on `m["store"] = ...` when the
body was the JSON literal null and the map is nil. -/
def Proxy.rewriteBody : AccountType → JBody → Option OutBody
  | _, .empty => some (.raw .empty)
  | _, .notObj bs => some (.raw (.notObj bs))
  | _, .nullLit _ => none
  | .apiKey, .obj m =>
    some (.marshalled (jdel (jset m "store" (.jbool true)) "include"))
  | .chatGPT, .obj m =>
    some (.marshalled (jset (jset m "store" (.jbool false)) "include"
      (.jstrArr ["reasoning.encrypted_content"])))

/-- HTTP headers as a multimap, Go `http.Header`. -/
abbrev Headers := List (String × List String)

/-- Go `http.Header.Get`-like read of the whole value list. -/
def hGet : Headers → String → Option (List String)
  | [], _ => none
  | p :: rest, k => if p.1 = k then some p.2 else hGet rest k

/-- Go `http.Header.Del`. -/
def hDel (h : Headers) (k : String) : Headers :=
  h.filter (fun p => decide (p.1 ≠ k))

/-- Go `http.Header.Set`: replace every value of the key by the single one. -/
def hSet (h : Headers) (k : String) (v : String) : Headers :=
  (k, [v]) :: hDel h k

/-- Go `strings.TrimPrefix(path, "/v1")`. -/
def trimV1 (p : String) : String :=
  if "/v1".isPrefixOf p then p.drop 3 else p

/-- The inbound client request as the handler sees it after reading the
body. -/
structure InReq where
  method : String
  path : String
  rawQuery : String
  headers : Headers
  body : JBody
deriving DecidableEq, Repr

/-- `r.URL.String()` as logged: path plus the original query string. -/
def InReq.urlString (r : InReq) : String :=
  r.path ++ (if r.rawQuery ≠ "" then "?" ++ r.rawQuery else "")

/-- The outgoing upstream request built for one attempt. -/
structure OutReq where
  method : String
  url : String
  headers : Headers
  body : OutBody
deriving DecidableEq, Repr

/-- The two upstream bases configured on the handler. -/
structure ProxyCfg where
  upstreamAPI : String
  upstreamChatGPT : String
deriving DecidableEq, Repr

/-- Target, body rewrite and header rewrite of one attempt of
`proxy.ServeHTTP` (handler.go lines 80-128); `none` is the nil-map panic
propagating out of the body rewrite. -/
def Proxy.buildAttempt (cfg : ProxyCfg) (r : InReq) (a : Account) : Option OutReq :=
  let base := if a.typ = .apiKey then
      (if a.baseURL ≠ "" then a.baseURL else cfg.upstreamAPI)
    else cfg.upstreamChatGPT
  let path := if a.typ = .apiKey then r.path else trimV1 r.path
  match Proxy.rewriteBody a.typ r.body with
  | none => none
  | some ob =>
    let url := base ++ path ++ (if r.rawQuery ≠ "" then "?" ++ r.rawQuery else "")
    let hs :=
      if a.typ = .apiKey then
        hDel (hSet r.headers "Authorization" ("Bearer " ++ a.apiKey)) "chatgpt-account-id"
      else
        let hs1 := hSet r.headers "Authorization" ("Bearer " ++ a.accessToken)
        if a.accountID ≠ "" then hSet hs1 "chatgpt-account-id" a.accountID else hs1
    some { method := r.method, url := url, headers := hs, body := ob }

/-- What one `h.Client.Do` returns: a transport failure or a response. -/
inductive UpstreamResp
  | transportErr (msg : String)
  | resp (status : Int) (headers : Headers) (body : List Nat)
deriving DecidableEq, Repr

/-- The upstream service as an environment. -/
def UpstreamEnv := OutReq → UpstreamResp

/-- One `h.Log.Insert` call of the handler, keeping the claim-relevant
fields: the account used, the original client body, the response body, the
status (0 on transport failure) and the error string. -/
structure AttemptLog where
  accountID : Int
  method : String
  url : String
  reqBody : JBody
  respBody : List Nat
  status : Int
  error : Option String
deriving DecidableEq, Repr

/-- The log entry inserted after a transport failure: status 0 and the
error string, with the original client body. -/
def Proxy.errLog (a : Account) (r : InReq) (e : String) : AttemptLog :=
  { accountID := a.id, method := r.method, url := r.urlString,
    reqBody := r.body, respBody := [], status := 0, error := some e }

/-- The log entry inserted after a response: its status and body, with the
original client body. -/
def Proxy.okLog (a : Account) (r : InReq) (st : Int) (bd : List Nat) : AttemptLog :=
  { accountID := a.id, method := r.method, url := r.urlString,
    reqBody := r.body, respBody := bd, status := st, error := none }

/-- How `ServeHTTP` ends. -/
inductive ProxyResult
  | notFound
  | noAccounts
  | badGateway
  | panicked
  | fellThrough
  | response (status : Int) (headers : Headers) (body : List Nat)
deriving DecidableEq, Repr

/-- Result of a request together with the side effects: final account
store, log inserts and upstream calls in order. -/
structure ProxyTrace where
  result : ProxyResult
  db : AccountDB
  logs : List AttemptLog
  calls : List OutReq
deriving DecidableEq, Repr

/-- The retry ladder of `proxy.ServeHTTP` (handler.go lines 71-199).  The
fuel `n` is the number of attempts still allowed: Go's `attempts` counter
equals `3 - n`, so the Go guards `attempts == 2` / `attempts < 2` become
`n = 1` / `n > 1`, and the unreachable fall-off of the `for` loop is
`fellThrough`. -/
def Proxy.loop (cfg : ProxyCfg) (env : TokenEnv) (up : UpstreamEnv) (now : Int)
    (r : InReq) : Nat → AccountDB → List AttemptLog → List OutReq → ProxyTrace
  | 0, db, logs, calls => { result := .fellThrough, db := db, logs := logs, calls := calls }
  | n + 1, db, logs, calls =>
    match Scheduler.next env now db with
    | .error _ => { result := .noAccounts, db := db, logs := logs, calls := calls }
    | .ok (a, db1) =>
      match Proxy.buildAttempt cfg r a with
      | none => { result := .panicked, db := db1, logs := logs, calls := calls }
      | some req =>
        let calls1 := calls ++ [req]
        match up req with
        | .transportErr e =>
          let logs1 := logs ++ [Proxy.errLog a r e]
          if n = 0 then
            { result := .badGateway, db := db1, logs := logs1, calls := calls1 }
          else
            Proxy.loop cfg env up now r n db1 logs1 calls1
        | .resp st hs bd =>
          let logs1 := logs ++ [Proxy.okLog a r st bd]
          if st = 429 then
            let db2 := Manager.markExhausted db1 a.id (now + hourNs)
            if n = 0 then
              { result := .response st hs bd, db := db2, logs := logs1, calls := calls1 }
            else
              Proxy.loop cfg env up now r n db2 logs1 calls1
          else
            { result := .response st hs bd, db := db1, logs := logs1, calls := calls1 }

/-- The admitted path prefixes of the handler. -/
def Proxy.allowedPath (p : String) : Bool :=
  ["/v1/responses", "/v1/chat/completions", "/v1/models"].any
    (fun pre => pre.isPrefixOf p)

/-- Go `proxy.ServeHTTP`: 404 for `/admin` and non-admitted paths, then the
three-attempt ladder. -/
def Proxy.serveHTTP (cfg : ProxyCfg) (env : TokenEnv) (up : UpstreamEnv)
    (now : Int) (db : AccountDB) (r : InReq) : ProxyTrace :=
  if "/admin".isPrefixOf r.path then
    { result := .notFound, db := db, logs := [], calls := [] }
  else if !Proxy.allowedPath r.path then
    { result := .notFound, db := db, logs := [], calls := [] }
  else
    Proxy.loop cfg env up now r 3 db [] []

/-- A Go string: an arbitrary byte sequence, not necessarily valid UTF-8.
HTTP header keys and values reach the log store as Go strings, so they are
modelled at the byte level. -/
abbrev GoStr := List Nat

/-- An `http.Header` over Go strings: a multimap from byte-string keys to
lists of byte-string values. -/
abbrev GHeaders := List (GoStr × List GoStr)

/-- Whether a byte is a UTF-8 continuation byte (0x80..0xBF). -/
def isCont (b : Nat) : Bool := 0x80 ≤ b && b ≤ 0xBF

/-- The UTF-8 encoding of U+FFFD, which Go's JSON encoder emits for every
byte at which UTF-8 decoding fails. -/
def utf8Repl : GoStr := [0xEF, 0xBF, 0xBD]

/-- Accepted range of the second byte of a three-byte sequence, per Go's
`unicode/utf8` tables: 0xE0 requires 0xA0..0xBF (no overlong forms) and
0xED requires 0x80..0x9F (no surrogates). -/
def cont3Ok (b0 b1 : Nat) : Bool :=
  if b0 = 0xE0 then 0xA0 ≤ b1 && b1 ≤ 0xBF
  else if b0 = 0xED then 0x80 ≤ b1 && b1 ≤ 0x9F
  else isCont b1

/-- Accepted range of the second byte of a four-byte sequence, per Go's
`unicode/utf8` tables: 0xF0 requires 0x90..0xBF (no overlong forms) and
0xF4 requires 0x80..0x8F (nothing above U+10FFFF). -/
def cont4Ok (b0 b1 : Nat) : Bool :=
  if b0 = 0xF0 then 0x90 ≤ b1 && b1 ≤ 0xBF
  else if b0 = 0xF4 then 0x80 ≤ b1 && b1 ≤ 0x8F
  else isCont b1

/-- Worker for `utf8Coerce` with a fuel argument (one unit per byte is
always enough, since every step consumes at least one byte); the fuel makes
the recursion structural so the function computes by reduction. -/
def utf8CoerceGo : Nat → GoStr → GoStr
  | 0, _ => []
  | _ + 1, [] => []
  | fuel + 1, b0 :: rest =>
    if b0 < 0x80 then b0 :: utf8CoerceGo fuel rest
    else if b0 < 0xC2 then utf8Repl ++ utf8CoerceGo fuel rest
    else if b0 ≤ 0xDF then
      match rest with
      | b1 :: rest2 =>
        if isCont b1 then b0 :: b1 :: utf8CoerceGo fuel rest2
        else utf8Repl ++ utf8CoerceGo fuel rest
      | [] => utf8Repl
    else if b0 ≤ 0xEF then
      match rest with
      | b1 :: b2 :: rest3 =>
        if cont3Ok b0 b1 && isCont b2 then b0 :: b1 :: b2 :: utf8CoerceGo fuel rest3
        else utf8Repl ++ utf8CoerceGo fuel rest
      | _ => utf8Repl ++ utf8CoerceGo fuel rest
    else if b0 ≤ 0xF4 then
      match rest with
      | b1 :: b2 :: b3 :: rest4 =>
        if cont4Ok b0 b1 && isCont b2 && isCont b3 then
          b0 :: b1 :: b2 :: b3 :: utf8CoerceGo fuel rest4
        else utf8Repl ++ utf8CoerceGo fuel rest
      | _ => utf8Repl ++ utf8CoerceGo fuel rest
    else utf8Repl ++ utf8CoerceGo fuel rest

/-- What marshalling a Go string to JSON and unmarshalling it back does to
its bytes: Go's encoder walks the string rune by rune with
`utf8.DecodeRuneInString`; a valid sequence survives byte-for-byte (JSON
escaping round-trips), and each byte at which decoding fails is replaced by
U+FFFD, advancing one byte.  Validity follows Go's `unicode/utf8` accept
ranges: ASCII, 0xC2..0xDF + continuation, 0xE0..0xEF with `cont3Ok`, and
0xF0..0xF4 with `cont4Ok`. -/
def utf8Coerce (bs : GoStr) : GoStr := utf8CoerceGo bs.length bs

/-- Byte-lexicographic order on Go strings, as `sort.Strings` orders the
JSON object keys. -/
def byteLe : GoStr → GoStr → Bool
  | [], _ => true
  | _ :: _, [] => false
  | a :: as, b :: bs => if a < b then true else if b < a then false else byteLe as bs

/-- Go map read over an association list, generic in the key type. -/
def mvGet {α β : Type} [DecidableEq α] : List (α × β) → α → Option β
  | [], _ => none
  | p :: rest, k => if p.1 = k then some p.2 else mvGet rest k

/-- Equality of Go-string headers as multimaps: same values under every
key. -/
def gHeaderMMEq (h h' : GHeaders) : Prop :=
  ∀ k, mvGet h k = mvGet h' k

/-- The JSON values a marshalled header column contains: arrays of
strings. -/
inductive JValB
  | strArrB (xs : List GoStr)
deriving DecidableEq, Repr

/-- Go `json.Marshal` of an `http.Header`: a JSON object whose keys are
emitted in sorted order (Go sorts map keys when encoding), each value the
array of the header's strings; every key and value string passes through
the encoder's UTF-8 coercion. -/
def marshalHeaderB (h : GHeaders) : List (GoStr × JValB) :=
  List.insertionSort (fun p q : GoStr × JValB => byteLe p.1 q.1 = true)
    (h.map (fun p => (utf8Coerce p.1, JValB.strArrB (p.2.map utf8Coerce))))

/-- Go `json.Unmarshal` of a header column back into `http.Header`. -/
def unmarshalHeaderB (fs : List (GoStr × JValB)) : GHeaders :=
  fs.map (fun p => (p.1, match p.2 with | .strArrB xs => xs))

/-- Go `log.RequestLog` (the current shape, with sizes and duration);
bodies and header strings are Go strings of arbitrary bytes, modelled as
byte lists. -/
structure RequestLog where
  id : Int
  time : Int
  accountID : Int
  method : String
  url : String
  reqHeader : GHeaders
  reqBody : List Nat
  reqSize : Int
  respHeader : GHeaders
  respBody : List Nat
  respSize : Int
  status : Int
  durationMs : Int
  error : String
deriving DecidableEq, Repr

/-- One row of the `logs` table: the two header columns hold the
`json.Marshal` image of the header map. -/
structure LogRow where
  id : Int
  time : Int
  accountID : Int
  method : String
  url : String
  reqHeaderJson : List (GoStr × JValB)
  reqBody : List Nat
  reqSize : Int
  respHeaderJson : List (GoStr × JValB)
  respBody : List Nat
  respSize : Int
  status : Int
  durationMs : Int
  error : String
deriving DecidableEq, Repr

/-- The `logs` table plus its AUTOINCREMENT counter. -/
structure LogDB where
  rows : List LogRow
  nextId : Int
deriving DecidableEq, Repr

/-- The row the INSERT statement writes: every field of the entry, with the
two headers marshalled to JSON and the id assigned by AUTOINCREMENT. -/
def LogRow.ofRequest (i : Int) (rl : RequestLog) : LogRow :=
  { id := i, time := rl.time,
    accountID := rl.accountID, method := rl.method, url := rl.url,
    reqHeaderJson := marshalHeaderB rl.reqHeader, reqBody := rl.reqBody,
    reqSize := rl.reqSize, respHeaderJson := marshalHeaderB rl.respHeader,
    respBody := rl.respBody, respSize := rl.respSize, status := rl.status,
    durationMs := rl.durationMs, error := rl.error }

/-- Go `log.Store.Insert`: marshal the two headers and INSERT the row; the
AUTOINCREMENT id is assigned by the database. -/
def LogStore.insert (db : LogDB) (rl : RequestLog) : LogDB :=
  { rows := db.rows ++ [LogRow.ofRequest db.nextId rl], nextId := db.nextId + 1 }

/-- Scan of one log row back into a `RequestLog`. -/
def LogRow.toRequestLog (r : LogRow) : RequestLog :=
  { id := r.id, time := r.time, accountID := r.accountID, method := r.method,
    url := r.url, reqHeader := unmarshalHeaderB r.reqHeaderJson,
    reqBody := r.reqBody, reqSize := r.reqSize,
    respHeader := unmarshalHeaderB r.respHeaderJson, respBody := r.respBody,
    respSize := r.respSize, status := r.status, durationMs := r.durationMs,
    error := r.error }

/-- Go `log.Store.List`: `ORDER BY id DESC LIMIT n OFFSET offset`, decoding
the header columns. -/
def LogStore.listLogs (db : LogDB) (n offset : Nat) : List RequestLog :=
  ((((List.insertionSort (fun r s : LogRow => s.id ≤ r.id) db.rows).drop offset).take n).map
    LogRow.toRequestLog)

/-- The decoded shape of `$CODEX_HOME/auth.json` as `webui.ImportAuth`
declares it: only `tokens.refresh_token` and `tokens.account_id` are read;
the file's `access_token` and `last_refresh` fields have no counterpart in
the decoding struct and never reach the program. -/
structure AuthDotJson where
  refreshToken : String
  accountID : String
deriving DecidableEq, Repr

/-- Errors of the import. -/
inductive ImportErr
  | noToken
  | store (e : StoreErr)
deriving DecidableEq, Repr

/-- Go `webui.ImportAuth` after the file read: fail when the refresh token
is empty, pick the priority of the last listed account plus one (zero for an
empty pool), and create the ChatGPT account named "imported". -/
def WebUI.importAuth (db : AccountDB) (cfg : AuthDotJson) :
    Except ImportErr (Account × AccountDB) :=
  if cfg.refreshToken = "" then .error .noToken
  else
    let accounts := Manager.list db
    let priority := match accounts.getLast? with
      | some a => a.priority + 1
      | none => 0
    match Manager.addChatGPT db "imported" cfg.refreshToken cfg.accountID priority with
    | .error e => .error (.store e)
    | .ok p => .ok p

/-- Whether an `Except` is a success. -/
def exceptOk {ε α : Type} : Except ε α → Bool
  | .ok _ => true
  | .error _ => false

/-- A credential survives the scheduler's whole per-entry test: it is usable
and, when it is a ChatGPT account, its refresh call succeeds. -/
def selectableB (env : TokenEnv) (now : Int) (db : AccountDB) (a : Account) : Bool :=
  usableB now a && (decide (a.typ = .apiKey) || exceptOk (Auth.refresh env now db a))

/-- What `Manager.Reactivate` does to a matching row. -/
def clearRow (r : Row) : Row :=
  { r with exhausted := false, resetAt := none }

/-- Clear a row iff its id is in the given set. -/
def clearIf (s : List Int) (r : Row) : Row :=
  if r.id ∈ s then clearRow r else r

/-- Ids that one reactivation tick touches: snapshot entries that are
exhausted with `now` strictly after the reset time. -/
def reactIds (now : Int) (L : List Account) : List Int :=
  (L.filter (fun a => a.exhausted && decide (now > a.resetAt))).map (fun a => a.id)

/-- Run a sequence of `AddAPIKey` calls that all carry the same key `k`,
threading the store and collecting each call's outcome.  Each list entry is
the remaining arguments (name, baseURL, priority). -/
def Manager.addAPIKeySeq (db : AccountDB) (k : String) :
    List (String × String × Int) → AccountDB × List (Except StoreErr Account)
  | [] => (db, [])
  | (n, b, p) :: rest =>
    match Manager.addAPIKey db n k b p with
    | .error e =>
      let out := Manager.addAPIKeySeq db k rest
      (out.1, .error e :: out.2)
    | .ok (a, db') =>
      let out := Manager.addAPIKeySeq db' k rest
      (out.1, .ok a :: out.2)

/-- Run a sequence of `AddChatGPT` calls that all carry the same refresh
token `rt`.  Each list entry is (name, accountID, priority). -/
def Manager.addChatGPTSeq (db : AccountDB) (rt : String) :
    List (String × String × Int) → AccountDB × List (Except StoreErr Account)
  | [] => (db, [])
  | (n, aid, p) :: rest =>
    match Manager.addChatGPT db n rt aid p with
    | .error e =>
      let out := Manager.addChatGPTSeq db rt rest
      (out.1, .error e :: out.2)
    | .ok (a, db') =>
      let out := Manager.addChatGPTSeq db' rt rest
      (out.1, .ok a :: out.2)

/-- A static-key row used by concrete instances. -/
def mkKeyRow (i : Int) (k : String) (p : Int) (ex : Bool) (ra : Option Int) : Row :=
  { id := i, name := "key", typ := .apiKey, apiKey := some k,
    refreshToken := none, accessToken := none, tokenExpiresAt := none,
    accountID := none, baseURL := none, priority := p, exhausted := ex,
    resetAt := ra }

/-- An interactive-login row used by concrete instances. -/
def mkChatRow (i : Int) (rt : String) (p : Int) : Row :=
  { id := i, name := "chat", typ := .chatGPT, apiKey := none,
    refreshToken := some rt, accessToken := some "old",
    tokenExpiresAt := none, accountID := some "T", baseURL := none,
    priority := p, exhausted := false, resetAt := none }

/-- Pool for the scheduler counterexample: an interactive account at
priority 1 and a static key at priority 2. -/
def dbC1 : AccountDB :=
  { rows := [mkChatRow 1 "r1" 1, mkKeyRow 2 "k2" 2 false none], nextId := 3 }

/-- A token endpoint that fails every exchange. -/
def envFail : TokenEnv := fun _ => .err

/-- Pool for the amended-scheduler witness: one static key. -/
def dbC1w : AccountDB := { rows := [mkKeyRow 1 "k1" 1 false none], nextId := 2 }

/-- The account selected from `dbC1w`. -/
def aC1w : Account := Row.toAccount (mkKeyRow 1 "k1" 1 false none)

/-- Pool for the 429-ladder witness: two static keys. -/
def dbC2w : AccountDB :=
  { rows := [mkKeyRow 1 "k1" 1 false none, mkKeyRow 2 "k2" 2 false none], nextId := 3 }

/-- Handler configuration used by concrete instances. -/
def cfgW : ProxyCfg :=
  { upstreamAPI := "https://api.example", upstreamChatGPT := "https://chat.example" }

/-- Client request used by concrete instances. -/
def reqW : InReq :=
  { method := "POST", path := "/v1/responses", rawQuery := "",
    headers := [("Accept", ["text/plain"])], body := .obj [("store", .jbool true)] }

/-- The account selected first from `dbC2w`. -/
def aC2 : Account := Row.toAccount (mkKeyRow 1 "k1" 1 false none)

/-- The outgoing request built for `aC2` from `reqW`. -/
def outReqC2 : OutReq :=
  { method := "POST", url := "https://api.example/v1/responses",
    headers := [("Authorization", ["Bearer k1"]), ("Accept", ["text/plain"])],
    body := .marshalled [("store", .jbool true)] }

/-- Upstream that answers 429 to the bearer of key k1 and 200 otherwise. -/
def upC2 : UpstreamEnv := fun req =>
  if hGet req.headers "Authorization" = some ["Bearer k1"] then
    .resp 429 [] []
  else
    .resp 200 [("X", ["y"])] [50, 51]

/-- Pool for the refresh-gate divergence: one interactive account whose
stored token expiry is the zero time. -/
def dbC3 : AccountDB := { rows := [mkChatRow 1 "rt" 1], nextId := 2 }

/-- A token endpoint that always succeeds with a one-hour `expires_in` and
no refresh-token rotation. -/
def envC3 : TokenEnv := fun _ => .ok "tok2" "" 3600

/-- The account as `Scheduler.Next` returns it after the first refresh. -/
def accC3 : Account :=
  { Row.toAccount (mkChatRow 1 "rt" 1) with
      accessToken := "tok2",
      tokenExpiresAt := hourNs }

/-- The store after that refresh persisted via `Update`. -/
def dbC3After : AccountDB := Manager.update dbC3 accC3

/-- Pool for the reactivator counterexample: one credential exhausted with
`reset_at` exactly equal to the sweep instant. -/
def dbC6 : AccountDB := { rows := [mkKeyRow 1 "k1" 1 true (some 100)], nextId := 2 }

/-- Pool for the reactivator witness: one credential exhausted with
`reset_at` one minute in the past. -/
def dbC6w : AccountDB :=
  { rows := [mkKeyRow 1 "k1" 1 true (some (-minuteNs))], nextId := 2 }

/-- Empty account pool. -/
def dbEmpty : AccountDB := { rows := [], nextId := 1 }

/-- The decoded import file of the divergence instance (its on-disk original
also carries `access_token` and `last_refresh`, which the decoding struct of
`ImportAuth` silently drops). -/
def cfgC8 : AuthDotJson := { refreshToken := "rt", accountID := "A" }

/-- An import file without a refresh token. -/
def cfgC8empty : AuthDotJson := { refreshToken := "", accountID := "A" }

/-- The row the import creates. -/
def rowC8 : Row :=
  { id := 1, name := "imported", typ := .chatGPT, apiKey := none,
    refreshToken := some "rt", accessToken := none, tokenExpiresAt := none,
    accountID := some "A", baseURL := none, priority := 0,
    exhausted := false, resetAt := none }

/-- The account literal the import returns. -/
def accC8 : Account :=
  { id := 1, accountID := "A", name := "imported", typ := .chatGPT,
    apiKey := "", baseURL := "", refreshToken := "rt", accessToken := "",
    tokenExpiresAt := 0, priority := 0, exhausted := false, resetAt := 0 }

/-- Empty log store. -/
def logDbEmpty : LogDB := { rows := [], nextId := 1 }

/-- A log entry with multi-valued ASCII headers for the round-trip
witness. -/
def rlW : RequestLog :=
  { id := 0, time := 7, accountID := 1, method := "POST", url := "/v1/responses",
    reqHeader := [([66], [[50]]), ([65], [[49], [120]])], reqBody := [0, 255, 10],
    reqSize := 3, respHeader := [([88], [[121]])], respBody := [1, 2],
    respSize := 2, status := 200, durationMs := 12, error := "" }

/-- A log entry whose response-header value is the single byte 0xFF, a Go
string that is not valid UTF-8. -/
def rlBad : RequestLog :=
  { id := 0, time := 3, accountID := 1, method := "GET", url := "/v1/models",
    reqHeader := [], reqBody := [7], reqSize := 1,
    respHeader := [([88], [[255]])], respBody := [],
    respSize := 0, status := 200, durationMs := 1, error := "" }

/-- Reading the key just written returns the written value. -/
theorem jget_jset_self (m : JObj) (k : String) (v : JVal) :
    jget (jset m k v) k = some v := by
  induction m with
  | nil => simp [jset, jget]
  | cons p rest ih =>
    by_cases hp : p.1 = k
    · simp [jset, hp, jget]
    · simp [jset, hp, jget, ih]

/-- Writing one key leaves reads of other keys unchanged. -/
theorem jget_jset_ne (m : JObj) (k k' : String) (v : JVal) (h : k ≠ k') :
    jget (jset m k' v) k = jget m k := by
  have hk : ¬(k' = k) := fun hh => h hh.symm
  induction m with
  | nil => simp [jset, jget, hk]
  | cons p rest ih =>
    by_cases hp : p.1 = k'
    · have hpk : ¬(p.1 = k) := by rw [hp]; exact hk
      simp [jset, hp, jget, hk, hpk]
    · simp [jset, hp, jget, ih]

/-- Reading a deleted key gives nothing. -/
theorem jget_jdel_self (m : JObj) (k : String) :
    jget (jdel m k) k = none := by
  induction m with
  | nil => simp [jdel, jget]
  | cons p rest ih =>
    by_cases hp : p.1 = k
    · simpa [jdel, List.filter_cons, hp] using ih
    · simpa [jdel, List.filter_cons, hp, jget] using ih

/-- Deleting one key leaves reads of other keys unchanged. -/
theorem jget_jdel_ne (m : JObj) (k k' : String) (h : k ≠ k') :
    jget (jdel m k') k = jget m k := by
  have hks : ¬(k' = k) := fun hh => h hh.symm
  induction m with
  | nil => simp [jdel, jget]
  | cons p rest ih =>
    by_cases hp : p.1 = k'
    · simpa [jdel, List.filter_cons, hp, jget, hks] using ih
    · by_cases hk : p.1 = k
      · simp [jdel, List.filter_cons, hp, jget, hk, h]
      · simpa [jdel, List.filter_cons, hp, jget, hk] using ih

/-- Reading the header just set returns exactly the new value. -/
theorem hGet_hSet_self (h : Headers) (k v : String) :
    hGet (hSet h k v) k = some [v] := by
  simp [hSet, hGet]

/-- Reading a deleted header gives nothing. -/
theorem hGet_hDel_self (h : Headers) (k : String) :
    hGet (hDel h k) k = none := by
  induction h with
  | nil => simp [hDel, hGet]
  | cons p rest ih =>
    by_cases hp : p.1 = k
    · simpa [hDel, List.filter_cons, hp] using ih
    · simpa [hDel, List.filter_cons, hp, hGet] using ih

/-- Deleting one header leaves reads of other headers unchanged. -/
theorem hGet_hDel_ne (h : Headers) (k k' : String) (hne : k ≠ k') :
    hGet (hDel h k') k = hGet h k := by
  have hks : ¬(k' = k) := fun hh => hne hh.symm
  induction h with
  | nil => simp [hDel, hGet]
  | cons p rest ih =>
    by_cases hp : p.1 = k'
    · simpa [hDel, List.filter_cons, hp, hGet, hks] using ih
    · by_cases hk : p.1 = k
      · simp [hDel, List.filter_cons, hp, hGet, hk, hne]
      · simpa [hDel, List.filter_cons, hp, hGet, hk] using ih

/-- Setting one header leaves reads of other headers unchanged. -/
theorem hGet_hSet_ne (h : Headers) (k k' v : String) (hne : k ≠ k') :
    hGet (hSet h k' v) k = hGet h k := by
  have hks : ¬(k' = k) := fun hh => hne hh.symm
  have h1 : hGet (hSet h k' v) k = hGet (hDel h k') k := by
    simp [hSet, hGet, hks]
  rw [h1, hGet_hDel_ne h k k' hne]

/-- A successful refresh never changes the identity or the priority of the
account it returns. -/
theorem Auth.refresh_preserves (env : TokenEnv) (now : Int) (db : AccountDB)
    (a a' : Account) (db' : AccountDB)
    (h : Auth.refresh env now db a = .ok (a', db')) :
    a'.id = a.id ∧ a'.priority = a.priority := by
  unfold Auth.refresh at h
  by_cases h1 : a.typ ≠ .chatGPT
  · simp [h1] at h
    obtain ⟨h2, _⟩ := h
    simp [← h2]
  · simp [h1] at h
    by_cases h2 : a.tokenExpiresAt - now > minuteNs
    · simp [h2] at h
      obtain ⟨h3, _⟩ := h
      simp [← h3]
    · simp [h2] at h
      cases henv : env a.refreshToken with
      | err => simp [henv] at h
      | ok tok rt sec =>
        simp [henv] at h
        obtain ⟨h3, _⟩ := h
        simp [← h3]

/-- On any priority-sorted snapshot, the selection loop returns a
selectable account of minimum priority among the selectable ones. -/
theorem Scheduler.nextGo_min (env : TokenEnv) (now : Int) (db : AccountDB) :
    ∀ (L : List Account) (a' : Account) (db' : AccountDB),
      L.Pairwise (fun a b : Account => a.priority ≤ b.priority) →
      Scheduler.nextGo env now db L = .ok (a', db') →
      ∃ a, a ∈ L ∧ selectableB env now db a = true ∧ a'.id = a.id ∧
        a'.priority = a.priority ∧
        ∀ b ∈ L, selectableB env now db b = true → a.priority ≤ b.priority := by
  intro L
  induction L with
  | nil =>
    intro a' db' _ h
    simp [Scheduler.nextGo] at h
  | cons x t ih =>
    intro a' db' hp h
    rw [Scheduler.nextGo] at h
    by_cases hskip : (x.exhausted && decide (now < x.resetAt)) = true
    · rw [if_pos hskip] at h
      obtain ⟨a, ha1, ha2, ha3, ha4, ha5⟩ := ih a' db' (List.pairwise_cons.mp hp).2 h
      refine ⟨a, List.mem_cons_of_mem _ ha1, ha2, ha3, ha4, ?_⟩
      intro b hb hbs
      rcases List.mem_cons.mp hb with rfl | hb2
      · exfalso
        simp [selectableB, usableB, hskip] at hbs
      · exact ha5 b hb2 hbs
    · rw [if_neg hskip] at h
      by_cases htyp : x.typ = .chatGPT
      · rw [if_pos htyp] at h
        cases href : Auth.refresh env now db x with
        | error e =>
          rw [href] at h
          simp only [] at h
          obtain ⟨a, ha1, ha2, ha3, ha4, ha5⟩ := ih a' db' (List.pairwise_cons.mp hp).2 h
          refine ⟨a, List.mem_cons_of_mem _ ha1, ha2, ha3, ha4, ?_⟩
          intro b hb hbs
          rcases List.mem_cons.mp hb with rfl | hb2
          · exfalso
            have h1 : ¬(b.typ = .apiKey) := by
              rw [htyp]; intro hh; cases hh
            simp [selectableB, exceptOk, href, h1] at hbs
          · exact ha5 b hb2 hbs
        | ok p =>
          rw [href] at h
          simp only [] at h
          obtain ⟨rfl⟩ : p = (a', db') := by
            cases h1 : h
            rfl
          obtain ⟨hid, hpr⟩ := Auth.refresh_preserves env now db x a' db' href
          refine ⟨x, List.mem_cons_self _ _, ?_, hid, hpr, ?_⟩
          · simp [selectableB, usableB, hskip, exceptOk, href]
          · intro b hb hbs
            rcases List.mem_cons.mp hb with rfl | hb2
            · exact le_refl _
            · exact (List.pairwise_cons.mp hp).1 b hb2
      · rw [if_neg htyp] at h
        have hx : a' = x ∧ db' = db := by
          cases h
          exact ⟨rfl, rfl⟩
        obtain ⟨rfl, rfl⟩ := hx
        have htk : a'.typ = .apiKey := by
          cases hv : a'.typ
          · rfl
          · exact absurd hv htyp
        refine ⟨a', List.mem_cons_self _ _, ?_, rfl, rfl, ?_⟩
        · simp [selectableB, usableB, hskip, htk]
        · intro b hb hbs
          rcases List.mem_cons.mp hb with rfl | hb2
          · exact le_refl _
          · exact (List.pairwise_cons.mp hp).1 b hb2

/-- C1 (counterexample): next() does not always return the minimum-priority
usable credential.  When the top-priority interactive account's token
refresh fails, next() skips it and returns the priority-2 static key even
though the priority-1 account is usable in the claim's sense. -/
theorem scheduler_next_priority_cex :
    Scheduler.next envFail 0 dbC1 =
      .ok (Row.toAccount (mkKeyRow 2 "k2" 2 false none), dbC1) ∧
    usableB 0 (Row.toAccount (mkChatRow 1 "r1" 1)) = true ∧
    (Row.toAccount (mkChatRow 1 "r1" 1)).priority <
      (Row.toAccount (mkKeyRow 2 "k2" 2 false none)).priority ∧
    mkChatRow 1 "r1" 1 ∈ dbC1.rows := by
  refine ⟨rfl, rfl, by decide, by decide⟩

/-- C1 (amended): whenever the scheduler's selection loop runs on a
priority-sorted snapshot of the pool and returns a credential, that
credential has minimum priority among the credentials that are usable and
whose refresh (required only for interactive-login accounts) succeeds.
The snapshot `L` ranges over every priority-sorted permutation of the
pool, covering every tie resolution the unspecified SQLite `ORDER BY` /
`sort.Slice` pipeline may produce; `Scheduler.next` is the instance of
`Scheduler.nextGo` at one such snapshot.  No order among equal-priority
credentials is asserted, because the program does not guarantee one. -/
theorem scheduler_next_amended (env : TokenEnv) (now : Int) (db : AccountDB)
    (L : List Account) (a' : Account) (db' : AccountDB)
    (hperm : L.Perm (db.rows.map Row.toAccount))
    (hsorted : L.Pairwise (fun a b : Account => a.priority ≤ b.priority))
    (h : Scheduler.nextGo env now db L = .ok (a', db')) :
    ∃ a, a ∈ db.rows.map Row.toAccount ∧ selectableB env now db a = true ∧
      a'.id = a.id ∧ a'.priority = a.priority ∧
      ∀ b ∈ db.rows.map Row.toAccount, selectableB env now db b = true →
        a.priority ≤ b.priority := by
  obtain ⟨a, ha1, ha2, ha3, ha4, ha5⟩ :=
    Scheduler.nextGo_min env now db L a' db' hsorted h
  refine ⟨a, hperm.mem_iff.mp ha1, ha2, ha3, ha4, ?_⟩
  intro b hb hbs
  exact ha5 b (hperm.mem_iff.mpr hb) hbs

/-- C1 (witness): the amended selection theorem applied to a one-account
pool and its (unique) priority-sorted snapshot. -/
theorem scheduler_next_amended_witness :
    ([aC1w] : List Account).Perm (dbC1w.rows.map Row.toAccount) ∧
    ([aC1w] : List Account).Pairwise
      (fun a b : Account => a.priority ≤ b.priority) ∧
    Scheduler.nextGo envFail 0 dbC1w [aC1w] = .ok (aC1w, dbC1w) ∧
    (∃ a, a ∈ dbC1w.rows.map Row.toAccount ∧
      selectableB envFail 0 dbC1w a = true ∧
      aC1w.id = a.id ∧ aC1w.priority = a.priority ∧
      ∀ b ∈ dbC1w.rows.map Row.toAccount,
        selectableB envFail 0 dbC1w b = true → a.priority ≤ b.priority) :=
  ⟨by decide, by decide, rfl,
    scheduler_next_amended envFail 0 dbC1w [aC1w] aC1w dbC1w (by decide)
      (by decide) rfl⟩

/-- C2: whenever an attempt of the retry ladder gets a 429 from the
upstream, the selected credential is marked exhausted with
`reset_at = now + 1h`; if the attempt was not the last, the ladder loops
again (re-selecting a credential from the updated pool), and on the last
attempt the 429 status and body are returned to the client.  `m + 1` is the
number of attempts still allowed, so `m = 0` is the last attempt. -/
theorem proxy_loop_429 (cfg : ProxyCfg) (env : TokenEnv) (up : UpstreamEnv)
    (now : Int) (r : InReq) (m : Nat) (db db1 : AccountDB)
    (logs : List AttemptLog) (calls : List OutReq) (a : Account)
    (req : OutReq) (hs : Headers) (bd : List Nat)
    (hnext : Scheduler.next env now db = .ok (a, db1))
    (hreq : Proxy.buildAttempt cfg r a = some req)
    (hup : up req = .resp 429 hs bd) :
    Proxy.loop cfg env up now r (m + 1) db logs calls =
      (if 0 < m then
        Proxy.loop cfg env up now r m
          (Manager.markExhausted db1 a.id (now + hourNs))
          (logs ++ [Proxy.okLog a r 429 bd]) (calls ++ [req])
      else
        { result := .response 429 hs bd,
          db := Manager.markExhausted db1 a.id (now + hourNs),
          logs := logs ++ [Proxy.okLog a r 429 bd],
          calls := calls ++ [req] }) := by
  cases m with
  | zero =>
    simp only [Proxy.loop, hnext, hreq, hup]
    norm_num
  | succ k =>
    simp only [Proxy.loop, hnext, hreq, hup]
    norm_num

/-- C2 (witness): the 429 theorem applied at the last attempt over a
two-key pool whose upstream rejects the first bearer. -/
theorem proxy_loop_429_witness :
    Scheduler.next envFail 0 dbC2w = .ok (aC2, dbC2w) ∧
    Proxy.buildAttempt cfgW reqW aC2 = some outReqC2 ∧
    upC2 outReqC2 = .resp 429 [] [] ∧
    Proxy.loop cfgW envFail upC2 0 reqW (0 + 1) dbC2w [] [] =
      (if 0 < 0 then
        Proxy.loop cfgW envFail upC2 0 reqW 0
          (Manager.markExhausted dbC2w aC2.id (0 + hourNs))
          ([] ++ [Proxy.okLog aC2 reqW 429 []]) ([] ++ [outReqC2])
      else
        { result := .response 429 [] [],
          db := Manager.markExhausted dbC2w aC2.id (0 + hourNs),
          logs := [] ++ [Proxy.okLog aC2 reqW 429 []],
          calls := [] ++ [outReqC2] }) :=
  ⟨rfl, rfl, rfl,
    proxy_loop_429 cfgW envFail upC2 0 reqW 0 dbC2w dbC2w [] [] aC2
      outReqC2 [] [] rfl rfl rfl⟩

/-- C3: the refresh gate diverges from the 28-day window.  A successful
refresh at t = 0 stores `token_expires_at = now + expires_in` from the
server (here one hour), not 28 days, so a second next() only two hours
later, well within 28 days of the refresh, POSTs to the token endpoint
again instead of zero times. -/
theorem refresh_gate_divergence :
    Scheduler.next envC3 0 dbC3 = .ok (accC3, dbC3After) ∧
    Scheduler.nextPosts envC3 0 dbC3 = 1 ∧
    Scheduler.nextPosts envC3 (2 * hourNs) dbC3After = 1 ∧
    accC3.tokenExpiresAt = hourNs ∧
    2 * hourNs < 28 * dayNs :=
  ⟨rfl, rfl, rfl, rfl, by decide⟩

/-- C4: bodies that are empty or fail to unmarshal are forwarded unchanged,
but the body `null` is not: `json.Unmarshal` accepts it leaving the map
nil, and the subsequent store-field assignment panics, modelled by the
`none` result of the rewrite. -/
theorem rewrite_body_null_panics (t : AccountType) (bs : List Nat) :
    Proxy.rewriteBody t .empty = some (.raw .empty) ∧
    Proxy.rewriteBody t (.notObj bs) = some (.raw (.notObj bs)) ∧
    Proxy.rewriteBody t (.nullLit bs) = none := by
  cases t <;> exact ⟨rfl, rfl, rfl⟩

/-- C8: the import creates one interactive credential with
`tenant_id = account_id` and fails on a missing refresh token, but it
derives nothing from `last_refresh`: the created row stores NULL (zero) for
`token_expires_at` and for the access token whatever the file said, so the
claimed `token_refreshed_at` derivation does not happen. -/
theorem import_auth_divergence :
    WebUI.importAuth dbEmpty cfgC8 =
      .ok (accC8, { rows := [rowC8], nextId := 2 }) ∧
    rowC8.tokenExpiresAt = none ∧
    rowC8.accessToken = none ∧
    WebUI.importAuth dbEmpty cfgC8empty = .error .noToken :=
  ⟨rfl, rfl, rfl, rfl⟩

/-- Once some row carries the key, every further `AddAPIKey` with that key
fails with the duplicate error and leaves the store untouched. -/
theorem addAPIKeySeq_dup (k : String) :
    ∀ (l : List (String × String × Int)) (db : AccountDB),
      (∃ r ∈ db.rows, r.apiKey = some k) →
      Manager.addAPIKeySeq db k l =
        (db, l.map (fun _ => .error .duplicate)) := by
  intro l
  induction l with
  | nil => intro db _; rfl
  | cons p rest ih =>
    intro db hdup
    obtain ⟨n, b, pr⟩ := p
    have hany : db.rows.any (fun r => decide (r.apiKey = some k)) = true := by
      rw [List.any_eq_true]
      obtain ⟨r, hr1, hr2⟩ := hdup
      exact ⟨r, hr1, by simp [hr2]⟩
    have hadd : Manager.addAPIKey db n k b pr = .error .duplicate := by
      rw [Manager.addAPIKey, if_pos hany]
    simp only [Manager.addAPIKeySeq, hadd, ih db hdup, List.map]

/-- Once some row carries the refresh token, every further `AddChatGPT`
with that token fails with the duplicate error and leaves the store
untouched. -/
theorem addChatGPTSeq_dup (rt : String) :
    ∀ (l : List (String × String × Int)) (db : AccountDB),
      (∃ r ∈ db.rows, r.refreshToken = some rt) →
      Manager.addChatGPTSeq db rt l =
        (db, l.map (fun _ => .error .duplicate)) := by
  intro l
  induction l with
  | nil => intro db _; rfl
  | cons p rest ih =>
    intro db hdup
    obtain ⟨n, aid, pr⟩ := p
    have hany : db.rows.any (fun r => decide (r.refreshToken = some rt)) = true := by
      rw [List.any_eq_true]
      obtain ⟨r, hr1, hr2⟩ := hdup
      exact ⟨r, hr1, by simp [hr2]⟩
    have hadd : Manager.addChatGPT db n rt aid pr = .error .duplicate := by
      rw [Manager.addChatGPT, if_pos hany]
    simp only [Manager.addChatGPTSeq, hadd, ih db hdup, List.map]

/-- C5: starting from a pool free of the key, in any sequence of adds that
repeat one uniqueness key (the secret for static-key adds, the refresh
token for interactive adds) exactly the first add succeeds; every later
one returns the distinguished duplicate error — a constructor distinct
from `StoreErr.generic` — and the pool stays exactly the pool obtained
from the first add, without the duplicate row. -/
theorem add_duplicate_seq (db : AccountDB) (k rt : String)
    (p q : String × String × Int) (ps qs : List (String × String × Int))
    (hk : ∀ r ∈ db.rows, r.apiKey ≠ some k)
    (hrt : ∀ r ∈ db.rows, r.refreshToken ≠ some rt) :
    (∃ a db1, Manager.addAPIKey db p.1 k p.2.1 p.2.2 = .ok (a, db1) ∧
      Manager.addAPIKeySeq db k (p :: ps) =
        (db1, .ok a :: ps.map (fun _ => .error .duplicate))) ∧
    (∃ a db1, Manager.addChatGPT db q.1 rt q.2.1 q.2.2 = .ok (a, db1) ∧
      Manager.addChatGPTSeq db rt (q :: qs) =
        (db1, .ok a :: qs.map (fun _ => .error .duplicate))) := by
  obtain ⟨n, b, pr⟩ := p
  obtain ⟨n2, aid, pr2⟩ := q
  constructor
  · have hnotany : ¬(db.rows.any (fun r => decide (r.apiKey = some k)) = true) := by
      rw [List.any_eq_true]
      rintro ⟨r, hr, hrk⟩
      exact hk r hr (of_decide_eq_true hrk)
    have hadd : Manager.addAPIKey db n k b pr =
        .ok ({ id := db.nextId, accountID := "", name := n, typ := .apiKey,
               apiKey := k, baseURL := b, refreshToken := "",
               accessToken := "", tokenExpiresAt := 0, priority := pr,
               exhausted := false, resetAt := 0 },
             { rows := db.rows ++
                 [{ id := db.nextId, name := n, typ := .apiKey,
                    apiKey := some k, refreshToken := none,
                    accessToken := none, tokenExpiresAt := none,
                    accountID := none, baseURL := some b, priority := pr,
                    exhausted := false, resetAt := none }],
               nextId := db.nextId + 1 }) := by
      rw [Manager.addAPIKey, if_neg hnotany]
    refine ⟨_, _, hadd, ?_⟩
    simp only [Manager.addAPIKeySeq, hadd]
    rw [addAPIKeySeq_dup k ps _ ⟨_, List.mem_append_right _ (List.mem_singleton_self _), rfl⟩]
  · have hnotany : ¬(db.rows.any (fun r => decide (r.refreshToken = some rt)) = true) := by
      rw [List.any_eq_true]
      rintro ⟨r, hr, hrk⟩
      exact hrt r hr (of_decide_eq_true hrk)
    have hadd : Manager.addChatGPT db n2 rt aid pr2 =
        .ok ({ id := db.nextId, accountID := aid, name := n2, typ := .chatGPT,
               apiKey := "", baseURL := "", refreshToken := rt,
               accessToken := "", tokenExpiresAt := 0, priority := pr2,
               exhausted := false, resetAt := 0 },
             { rows := db.rows ++
                 [{ id := db.nextId, name := n2, typ := .chatGPT,
                    apiKey := none, refreshToken := some rt,
                    accessToken := none, tokenExpiresAt := none,
                    accountID := some aid, baseURL := none, priority := pr2,
                    exhausted := false, resetAt := none }],
               nextId := db.nextId + 1 }) := by
      rw [Manager.addChatGPT, if_neg hnotany]
    refine ⟨_, _, hadd, ?_⟩
    simp only [Manager.addChatGPTSeq, hadd]
    rw [addChatGPTSeq_dup rt qs _ ⟨_, List.mem_append_right _ (List.mem_singleton_self _), rfl⟩]

/-- C5 (witness): two repeated static-key adds and two repeated interactive
adds against the empty pool. -/
theorem add_duplicate_seq_witness :
    (∀ r ∈ dbEmpty.rows, r.apiKey ≠ some "k1") ∧
    (∀ r ∈ dbEmpty.rows, r.refreshToken ≠ some "rt") ∧
    ((∃ a db1, Manager.addAPIKey dbEmpty "a" "k1" "" 1 = .ok (a, db1) ∧
      Manager.addAPIKeySeq dbEmpty "k1" [("a", "", 1), ("a2", "", 2)] =
        (db1, .ok a :: [("a2", "", 2)].map (fun _ => .error .duplicate))) ∧
    (∃ a db1, Manager.addChatGPT dbEmpty "c" "rt" "T" 1 = .ok (a, db1) ∧
      Manager.addChatGPTSeq dbEmpty "rt" [("c", "T", 1), ("c2", "T", 2)] =
        (db1, .ok a :: [("c2", "T", 2)].map (fun _ => .error .duplicate)))) :=
  ⟨by decide, by decide,
    add_duplicate_seq dbEmpty "k1" "rt" ("a", "", 1) ("c", "T", 1)
      [("a2", "", 2)] [("c2", "T", 2)] (by decide) (by decide)⟩

/-- `Manager.Reactivate` clears exactly the rows whose id matches. -/
theorem reactivate_rows_clearIf (db : AccountDB) (i : Int) :
    (Manager.reactivate db i).rows = db.rows.map (clearIf [i]) := by
  rw [Manager.reactivate]
  apply List.map_congr_left
  intro r _
  by_cases h : r.id = i
  · simp [clearIf, h, clearRow]
  · simp [clearIf, h]

/-- Clearing by two id sets in sequence is clearing by their union. -/
theorem clearIf_comp (s1 s2 : List Int) (r : Row) :
    clearIf s2 (clearIf s1 r) = clearIf (s1 ++ s2) r := by
  by_cases h1 : r.id ∈ s1
  · by_cases h2 : r.id ∈ s2 <;>
      simp [clearIf, clearRow, h1, h2, List.mem_append]
  · by_cases h2 : r.id ∈ s2 <;>
      simp [clearIf, h1, h2, List.mem_append]

/-- The sweep's fold clears exactly the rows whose ids are collected from
the snapshot. -/
theorem reactivateTick_aux (now : Int) :
    ∀ (L : List Account) (db : AccountDB),
      ((L.foldl (Scheduler.reactivateStep now) db).rows) =
        db.rows.map (clearIf (reactIds now L)) := by
  intro L
  induction L with
  | nil =>
    intro db
    have h0 : clearIf ([] : List Int) = fun r => r := by
      funext r
      simp [clearIf]
    simp only [List.foldl_nil, reactIds, List.filter_nil, List.map_nil, h0,
      List.map_id']
  | cons a L ih =>
    intro db
    rw [List.foldl_cons, ih]
    by_cases hc : (a.exhausted && decide (now > a.resetAt)) = true
    · have hstep : Scheduler.reactivateStep now db a = Manager.reactivate db a.id := by
        rw [Scheduler.reactivateStep, if_pos hc]
      rw [hstep, reactivate_rows_clearIf, List.map_map]
      have hre : reactIds now (a :: L) = a.id :: reactIds now L := by
        simp [reactIds, List.filter_cons, hc]
      rw [hre]
      apply List.map_congr_left
      intro r _
      rw [Function.comp_apply, clearIf_comp]
      rfl
    · have hstep : Scheduler.reactivateStep now db a = db := by
        rw [Scheduler.reactivateStep, if_neg hc]
      have hre : reactIds now (a :: L) = reactIds now L := by
        simp [reactIds, List.filter_cons, hc]
      rw [hstep, hre]

/-- C6 (counterexample): a credential exhausted with `reset_at` exactly
equal to the sweep instant satisfies the claim's `now ≥ reset_at` but is
not reactivated: the tick uses the strict `now.After(reset_at)` and leaves
the pool unchanged, so `get` still reports it exhausted. -/
theorem reactivator_boundary_cex :
    (mkKeyRow 1 "k1" 1 true (some 100)).exhausted = true ∧
    (100 : Int) ≥ (Row.toAccount (mkKeyRow 1 "k1" 1 true (some 100))).resetAt ∧
    Scheduler.reactivateTick 100 dbC6 = dbC6 ∧
    (Manager.get (Scheduler.reactivateTick 100 dbC6) 1).map Account.exhausted =
      some true := by
  decide

/-- C6 (amended): one tick reactivates exactly the credentials that are
exhausted with `now` strictly after `reset_at` (NULL read as the zero
time), and changes no other row — in particular none whose `reset_at` is
still in the future; ids are assumed pairwise distinct, as the primary key
guarantees. -/
theorem reactivator_tick_amended (now : Int) (db : AccountDB)
    (hid : (db.rows.map Row.id).Nodup) :
    (Scheduler.reactivateTick now db).rows =
      db.rows.map (fun r =>
        if (r.exhausted && decide (now > (Row.toAccount r).resetAt)) = true
        then clearRow r else r) := by
  rw [Scheduler.reactivateTick, reactivateTick_aux]
  apply List.map_congr_left
  intro r hr
  by_cases hc : (r.exhausted && decide (now > (Row.toAccount r).resetAt)) = true
  · rw [if_pos hc]
    have hmem : r.id ∈ reactIds now (Manager.list db) := by
      apply List.mem_map.mpr
      refine ⟨Row.toAccount r, List.mem_filter.mpr ⟨?_, hc⟩, rfl⟩
      exact (List.mem_insertionSort _).mpr (List.mem_map_of_mem _ hr)
    simp [clearIf, hmem]
  · rw [if_neg hc]
    have hmem : r.id ∉ reactIds now (Manager.list db) := by
      intro hmem
      obtain ⟨a, ha, haid⟩ := List.mem_map.mp hmem
      obtain ⟨haL, hacond⟩ := List.mem_filter.mp ha
      obtain ⟨r', hr', hr'a⟩ :=
        List.mem_map.mp ((List.mem_insertionSort _).mp haL)
      have hrr : r' = r := by
        apply List.inj_on_of_nodup_map hid hr' hr
        show r'.id = r.id
        have h1 : r'.id = r'.toAccount.id := rfl
        rw [hr'a] at h1
        exact h1.trans haid
      subst hrr
      rw [← hr'a] at hacond
      exact hc hacond
    simp [clearIf, hmem]

/-- C6 (witness): the amended tick theorem applied to a pool with one
credential exhausted since a minute before the sweep. -/
theorem reactivator_tick_amended_witness :
    (dbC6w.rows.map Row.id).Nodup ∧
    (Scheduler.reactivateTick 0 dbC6w).rows =
      dbC6w.rows.map (fun r =>
        if (r.exhausted && decide ((0 : Int) > (Row.toAccount r).resetAt)) = true
        then clearRow r else r) :=
  ⟨by decide, reactivator_tick_amended 0 dbC6w (by decide)⟩

/-- C7: for an admitted request whose body is a JSON object, an
interactive-login attempt strips the leading /v1, authorises with the
access token, sends a body with store=false and
include=["reasoning.encrypted_content"], and carries the tenant header
whenever the tenant id is non-empty; a static-key attempt preserves the
path, authorises with the secret, drops the tenant header, and sends a
body with store=true and no include key. -/
theorem build_attempt_rewrites (cfg : ProxyCfg) (r : InReq) (a : Account)
    (m : JObj) (hbody : r.body = .obj m) :
    (a.typ = .chatGPT →
      ∃ req fs, Proxy.buildAttempt cfg r a = some req ∧
        req.method = r.method ∧
        req.url = cfg.upstreamChatGPT ++ trimV1 r.path ++
          (if r.rawQuery ≠ "" then "?" ++ r.rawQuery else "") ∧
        hGet req.headers "Authorization" = some ["Bearer " ++ a.accessToken] ∧
        (a.accountID ≠ "" →
          hGet req.headers "chatgpt-account-id" = some [a.accountID]) ∧
        req.body = .marshalled fs ∧
        jget fs "store" = some (.jbool false) ∧
        jget fs "include" = some (.jstrArr ["reasoning.encrypted_content"])) ∧
    (a.typ = .apiKey →
      ∃ req fs, Proxy.buildAttempt cfg r a = some req ∧
        req.method = r.method ∧
        req.url = (if a.baseURL ≠ "" then a.baseURL else cfg.upstreamAPI) ++
          r.path ++ (if r.rawQuery ≠ "" then "?" ++ r.rawQuery else "") ∧
        hGet req.headers "Authorization" = some ["Bearer " ++ a.apiKey] ∧
        hGet req.headers "chatgpt-account-id" = none ∧
        req.body = .marshalled fs ∧
        jget fs "store" = some (.jbool true) ∧
        jget fs "include" = none) := by
  constructor
  · intro ht
    have hne : ¬(a.typ = .apiKey) := by
      rw [ht]
      intro hh
      cases hh
    by_cases hT : a.accountID = ""
    · have hbuild : Proxy.buildAttempt cfg r a =
          some { method := r.method,
                 url := cfg.upstreamChatGPT ++ trimV1 r.path ++
                   (if r.rawQuery ≠ "" then "?" ++ r.rawQuery else ""),
                 headers := hSet r.headers "Authorization"
                   ("Bearer " ++ a.accessToken),
                 body := .marshalled (jset (jset m "store" (.jbool false))
                   "include" (.jstrArr ["reasoning.encrypted_content"])) } := by
        have hnT : ¬(a.accountID ≠ "") := fun hc => hc hT
        rw [Proxy.buildAttempt]
        simp only [hbody, ht, Proxy.rewriteBody, if_neg hne, if_neg hnT]
        simp
      refine ⟨_, _, hbuild, rfl, rfl, ?_, ?_, rfl, ?_, ?_⟩
      · rw [hGet_hSet_self]
      · intro hT2
        exact absurd hT hT2
      · rw [jget_jset_ne _ _ _ _ (by decide), jget_jset_self]
      · rw [jget_jset_self]
    · have hbuild : Proxy.buildAttempt cfg r a =
          some { method := r.method,
                 url := cfg.upstreamChatGPT ++ trimV1 r.path ++
                   (if r.rawQuery ≠ "" then "?" ++ r.rawQuery else ""),
                 headers := hSet (hSet r.headers "Authorization"
                   ("Bearer " ++ a.accessToken)) "chatgpt-account-id" a.accountID,
                 body := .marshalled (jset (jset m "store" (.jbool false))
                   "include" (.jstrArr ["reasoning.encrypted_content"])) } := by
        rw [Proxy.buildAttempt]
        simp only [hbody, ht, Proxy.rewriteBody, if_neg hne, if_pos hT]
        simp
      refine ⟨_, _, hbuild, rfl, rfl, ?_, ?_, rfl, ?_, ?_⟩
      · rw [hGet_hSet_ne _ _ _ _ (by decide), hGet_hSet_self]
      · intro _
        rw [hGet_hSet_self]
      · rw [jget_jset_ne _ _ _ _ (by decide), jget_jset_self]
      · rw [jget_jset_self]
  · intro ht
    have hbuild : Proxy.buildAttempt cfg r a =
        some { method := r.method,
               url := (if a.baseURL ≠ "" then a.baseURL else cfg.upstreamAPI) ++
                 r.path ++ (if r.rawQuery ≠ "" then "?" ++ r.rawQuery else ""),
               headers := hDel (hSet r.headers "Authorization"
                 ("Bearer " ++ a.apiKey)) "chatgpt-account-id",
               body := .marshalled (jdel (jset m "store" (.jbool true))
                 "include") } := by
      rw [Proxy.buildAttempt]
      simp only [hbody, ht, Proxy.rewriteBody, if_pos rfl]
      simp
    refine ⟨_, _, hbuild, rfl, rfl, ?_, ?_, rfl, ?_, ?_⟩
    · rw [hGet_hDel_ne _ _ _ (by decide), hGet_hSet_self]
    · rw [hGet_hDel_self]
    · rw [jget_jdel_ne _ _ _ (by decide), jget_jset_self]
    · rw [jget_jdel_self]

/-- C7 (witness): the rewrite theorem applied to a concrete interactive
credential, tenant "T", and the body from the spec's scenario. -/
theorem build_attempt_rewrites_witness :
    reqW.body = .obj [("store", .jbool true)] ∧
    (((Row.toAccount (mkChatRow 1 "rt" 1)).typ = .chatGPT →
      ∃ req fs, Proxy.buildAttempt cfgW reqW (Row.toAccount (mkChatRow 1 "rt" 1)) = some req ∧
        req.method = reqW.method ∧
        req.url = cfgW.upstreamChatGPT ++ trimV1 reqW.path ++
          (if reqW.rawQuery ≠ "" then "?" ++ reqW.rawQuery else "") ∧
        hGet req.headers "Authorization" =
          some ["Bearer " ++ (Row.toAccount (mkChatRow 1 "rt" 1)).accessToken] ∧
        ((Row.toAccount (mkChatRow 1 "rt" 1)).accountID ≠ "" →
          hGet req.headers "chatgpt-account-id" =
            some [(Row.toAccount (mkChatRow 1 "rt" 1)).accountID]) ∧
        req.body = .marshalled fs ∧
        jget fs "store" = some (.jbool false) ∧
        jget fs "include" = some (.jstrArr ["reasoning.encrypted_content"])) ∧
    ((Row.toAccount (mkChatRow 1 "rt" 1)).typ = .apiKey →
      ∃ req fs, Proxy.buildAttempt cfgW reqW (Row.toAccount (mkChatRow 1 "rt" 1)) = some req ∧
        req.method = reqW.method ∧
        req.url = (if (Row.toAccount (mkChatRow 1 "rt" 1)).baseURL ≠ ""
            then (Row.toAccount (mkChatRow 1 "rt" 1)).baseURL
            else cfgW.upstreamAPI) ++
          reqW.path ++ (if reqW.rawQuery ≠ "" then "?" ++ reqW.rawQuery else "") ∧
        hGet req.headers "Authorization" =
          some ["Bearer " ++ (Row.toAccount (mkChatRow 1 "rt" 1)).apiKey] ∧
        hGet req.headers "chatgpt-account-id" = none ∧
        req.body = .marshalled fs ∧
        jget fs "store" = some (.jbool true) ∧
        jget fs "include" = none)) :=
  ⟨rfl, build_attempt_rewrites cfgW reqW (Row.toAccount (mkChatRow 1 "rt" 1))
    [("store", .jbool true)] rfl⟩

/-- A lookup hit names an entry of the association list. -/
theorem mvGet_some_mem {α β : Type} [DecidableEq α] (h : List (α × β))
    (k : α) (vs : β) (hv : mvGet h k = some vs) : (k, vs) ∈ h := by
  induction h with
  | nil => simp [mvGet] at hv
  | cons p rest ih =>
    rw [mvGet] at hv
    by_cases hp : p.1 = k
    · rw [if_pos hp] at hv
      obtain rfl : p.2 = vs := by injection hv
      have hkp : (k, p.2) = p := by rw [← hp]
      rw [hkp]
      exact List.mem_cons_self _ _
    · rw [if_neg hp] at hv
      exact List.mem_cons_of_mem _ (ih hv)

/-- A lookup miss means the key is absent. -/
theorem mvGet_none_key {α β : Type} [DecidableEq α] (h : List (α × β))
    (k : α) (hv : mvGet h k = none) : k ∉ h.map Prod.fst := by
  induction h with
  | nil => simp
  | cons p rest ih =>
    rw [mvGet] at hv
    by_cases hp : p.1 = k
    · rw [if_pos hp] at hv
      cases hv
    · rw [if_neg hp] at hv
      simp only [List.map_cons, List.mem_cons]
      rintro (rfl | hmem)
      · exact hp rfl
      · exact ih hv hmem

/-- With pairwise distinct keys, membership determines the lookup. -/
theorem mvGet_eq_some_of_mem {α β : Type} [DecidableEq α] (h : List (α × β))
    (hn : (h.map Prod.fst).Nodup) (k : α) (vs : β) (hmem : (k, vs) ∈ h) :
    mvGet h k = some vs := by
  induction h with
  | nil => simp at hmem
  | cons p rest ih =>
    rw [mvGet]
    rcases List.mem_cons.mp hmem with rfl | hmem2
    · rw [if_pos rfl]
    · by_cases hp : p.1 = k
      · exfalso
        have hnc := List.nodup_cons.mp hn
        exact hnc.1 (hp ▸ List.mem_map_of_mem Prod.fst hmem2)
      · rw [if_neg hp]
        exact ih (List.nodup_cons.mp hn).2 hmem2

/-- A key missing from the list never resolves. -/
theorem mvGet_none_of_not_mem {α β : Type} [DecidableEq α] (h : List (α × β))
    (k : α) (hk : k ∉ h.map Prod.fst) : mvGet h k = none := by
  induction h with
  | nil => rfl
  | cons p rest ih =>
    rw [mvGet]
    simp only [List.map_cons, List.mem_cons] at hk
    push_neg at hk
    rw [if_neg (fun hh => hk.1 hh.symm)]
    exact ih hk.2

/-- Permuting an association list with pairwise distinct keys does not
change any lookup: the two lists are equal as multimaps. -/
theorem mvGet_eq_of_perm {α β : Type} [DecidableEq α] (h h' : List (α × β))
    (hn : (h.map Prod.fst).Nodup) (hp : h.Perm h') (k : α) :
    mvGet h k = mvGet h' k := by
  have hn' : (h'.map Prod.fst).Nodup := ((hp.map Prod.fst).nodup_iff).mp hn
  cases hv : mvGet h k with
  | none =>
    have hk : k ∉ h.map Prod.fst := mvGet_none_key h k hv
    have hk' : k ∉ h'.map Prod.fst := fun hmem =>
      hk ((hp.map Prod.fst).mem_iff.mpr hmem)
    exact (mvGet_none_of_not_mem h' k hk').symm
  | some vs =>
    have hmem : (k, vs) ∈ h := mvGet_some_mem h k vs hv
    exact (mvGet_eq_some_of_mem h' hn' k vs (hp.mem_iff.mp hmem)).symm

/-- For a header whose keys and values are valid UTF-8 (the coercion leaves
it unchanged), unmarshalling the marshalled header map gives back a
permutation of the original multimap (the JSON encoder emits the keys
sorted). -/
theorem unmarshalB_marshalB_perm (h : GHeaders)
    (hv : h.map (fun p => (utf8Coerce p.1, p.2.map utf8Coerce)) = h) :
    (unmarshalHeaderB (marshalHeaderB h)).Perm h := by
  rw [marshalHeaderB, unmarshalHeaderB]
  have hperm := (List.perm_insertionSort
    (fun p q : GoStr × JValB => byteLe p.1 q.1 = true)
    (h.map (fun p => (utf8Coerce p.1, JValB.strArrB (p.2.map utf8Coerce))))).map
    (fun p : GoStr × JValB => (p.1, match p.2 with | .strArrB xs => xs))
  refine hperm.trans ?_
  rw [List.map_map]
  have hfun : ((fun p : GoStr × JValB => (p.1, match p.2 with | .strArrB xs => xs)) ∘
      (fun p : GoStr × List GoStr => (utf8Coerce p.1, JValB.strArrB (p.2.map utf8Coerce)))) =
      fun p : GoStr × List GoStr => (utf8Coerce p.1, p.2.map utf8Coerce) := by
    funext p
    rfl
  rw [hfun, hv]

/-- The decoded header read back from the store is multimap-equal to the
header that was written, provided the written keys and values are valid
UTF-8 and the keys pairwise distinct (Go map keys always are). -/
theorem unmarshalB_marshalB_mmeq (h : GHeaders)
    (hv : h.map (fun p => (utf8Coerce p.1, p.2.map utf8Coerce)) = h)
    (hn : (h.map Prod.fst).Nodup) :
    gHeaderMMEq (unmarshalHeaderB (marshalHeaderB h)) h := by
  intro k
  have hperm := unmarshalB_marshalB_perm h hv
  have hn' : ((unmarshalHeaderB (marshalHeaderB h)).map Prod.fst).Nodup :=
    ((hperm.map Prod.fst).nodup_iff).mpr hn
  exact mvGet_eq_of_perm _ _ hn' hperm k

/-- Appending a row with a strictly larger id and sorting by id descending
puts that row first. -/
theorem sortDesc_head (l : List LogRow) (x : LogRow)
    (hx : ∀ r ∈ l, r.id < x.id) :
    ∃ rest, List.insertionSort (fun r s : LogRow => s.id ≤ r.id) (l ++ [x]) =
      x :: rest := by
  haveI instTot : IsTotal LogRow (fun r s => s.id ≤ r.id) :=
    ⟨fun a b => le_total b.id a.id⟩
  haveI instTr : IsTrans LogRow (fun r s => s.id ≤ r.id) :=
    ⟨fun a b c hab hbc => le_trans hbc hab⟩
  have hsorted := List.sorted_insertionSort
    (fun r s : LogRow => s.id ≤ r.id) (l ++ [x])
  have hperm := List.perm_insertionSort
    (fun r s : LogRow => s.id ≤ r.id) (l ++ [x])
  cases hL : List.insertionSort (fun r s : LogRow => s.id ≤ r.id) (l ++ [x]) with
  | nil =>
    exfalso
    have hx_mem : x ∈ List.insertionSort (fun r s : LogRow => s.id ≤ r.id) (l ++ [x]) :=
      hperm.mem_iff.mpr (List.mem_append_right _ (List.mem_singleton_self x))
    rw [hL] at hx_mem
    exact List.not_mem_nil x hx_mem
  | cons y rest =>
    have hy_mem : y ∈ l ++ [x] := hperm.mem_iff.mp (hL ▸ List.mem_cons_self y rest)
    rcases List.mem_append.mp hy_mem with hy | hy
    · exfalso
      have hx_mem : x ∈ y :: rest :=
        hL ▸ hperm.mem_iff.mpr (List.mem_append_right _ (List.mem_singleton_self x))
      rcases List.mem_cons.mp hx_mem with rfl | hx_rest
      · exact lt_irrefl _ (hx _ hy)
      · rw [hL] at hsorted
        have h1 : x.id ≤ y.id := (List.sorted_cons.mp hsorted).1 x hx_rest
        exact absurd (lt_of_le_of_lt h1 (hx y hy)) (lt_irrefl _)
    · rw [List.mem_singleton] at hy
      subst hy
      exact ⟨rest, rfl⟩

/-- C9 (counterexample): a log entry whose response-header value is the
byte 0xFF does not read back byte-identical: `json.Marshal` coerces the
invalid UTF-8 byte to U+FFFD, so `List` returns the header value
EF BF BD and the multimaps differ. -/
theorem log_roundtrip_cex :
    LogStore.listLogs (LogStore.insert logDbEmpty rlBad) 1 0 =
      [LogRow.toRequestLog (LogRow.ofRequest 1 rlBad)] ∧
    mvGet (LogRow.toRequestLog (LogRow.ofRequest 1 rlBad)).respHeader [88] =
      some [[239, 191, 189]] ∧
    mvGet rlBad.respHeader [88] = some [[255]] ∧
    ¬gHeaderMMEq (LogRow.toRequestLog (LogRow.ofRequest 1 rlBad)).respHeader
      rlBad.respHeader := by
  refine ⟨by decide, by decide, by decide, ?_⟩
  intro hmm
  have h1 := hmm [88]
  have h2 : mvGet (LogRow.toRequestLog (LogRow.ofRequest 1 rlBad)).respHeader [88] =
      some [[239, 191, 189]] := by decide
  have h3 : mvGet rlBad.respHeader [88] = some [[255]] := by decide
  rw [h2, h3] at h1
  exact absurd h1 (by decide)

/-- C9 (amended): inserting a request-log entry and reading the store back
newest-first returns that entry at the head with every scalar field and
both body byte strings identical, and both headers equal as multimaps,
provided the header keys and values are valid UTF-8 (the coercion Go's
JSON encoder applies leaves them unchanged); entries with invalid UTF-8
bytes in a header string read back with those bytes replaced by U+FFFD.
The rows already present are assumed to carry ids below the AUTOINCREMENT
counter, and the entry's header keys are pairwise distinct, as Go maps
guarantee. -/
theorem log_roundtrip (db : LogDB) (rl : RequestLog) (m : Nat)
    (hid : ∀ r ∈ db.rows, r.id < db.nextId)
    (hv1 : rl.reqHeader.map (fun p => (utf8Coerce p.1, p.2.map utf8Coerce)) =
      rl.reqHeader)
    (hv2 : rl.respHeader.map (fun p => (utf8Coerce p.1, p.2.map utf8Coerce)) =
      rl.respHeader)
    (hk1 : (rl.reqHeader.map Prod.fst).Nodup)
    (hk2 : (rl.respHeader.map Prod.fst).Nodup) :
    ∃ e rest, LogStore.listLogs (LogStore.insert db rl) (m + 1) 0 = e :: rest ∧
      e.time = rl.time ∧ e.accountID = rl.accountID ∧ e.method = rl.method ∧
      e.url = rl.url ∧ e.reqBody = rl.reqBody ∧ e.reqSize = rl.reqSize ∧
      e.respBody = rl.respBody ∧ e.respSize = rl.respSize ∧
      e.status = rl.status ∧ e.durationMs = rl.durationMs ∧
      e.error = rl.error ∧
      gHeaderMMEq e.reqHeader rl.reqHeader ∧
      gHeaderMMEq e.respHeader rl.respHeader := by
  obtain ⟨rest, hsort⟩ := sortDesc_head db.rows (LogRow.ofRequest db.nextId rl) hid
  refine ⟨LogRow.toRequestLog (LogRow.ofRequest db.nextId rl),
    (rest.take m).map LogRow.toRequestLog, ?_, rfl, rfl, rfl, rfl, rfl, rfl,
    rfl, rfl, rfl, rfl, rfl,
    unmarshalB_marshalB_mmeq rl.reqHeader hv1 hk1,
    unmarshalB_marshalB_mmeq rl.respHeader hv2 hk2⟩
  rw [LogStore.listLogs]
  rw [show (LogStore.insert db rl).rows =
    db.rows ++ [LogRow.ofRequest db.nextId rl] from rfl]
  rw [hsort]
  simp [List.take_succ_cons]

/-- C9 (witness): the amended round-trip theorem applied to a concrete
entry with multi-valued ASCII headers and arbitrary body bytes over the
empty store. -/
theorem log_roundtrip_witness :
    (∀ r ∈ logDbEmpty.rows, r.id < logDbEmpty.nextId) ∧
    rlW.reqHeader.map (fun p => (utf8Coerce p.1, p.2.map utf8Coerce)) =
      rlW.reqHeader ∧
    rlW.respHeader.map (fun p => (utf8Coerce p.1, p.2.map utf8Coerce)) =
      rlW.respHeader ∧
    (rlW.reqHeader.map Prod.fst).Nodup ∧
    (rlW.respHeader.map Prod.fst).Nodup ∧
    (∃ e rest, LogStore.listLogs (LogStore.insert logDbEmpty rlW) (0 + 1) 0 =
        e :: rest ∧
      e.time = rlW.time ∧ e.accountID = rlW.accountID ∧ e.method = rlW.method ∧
      e.url = rlW.url ∧ e.reqBody = rlW.reqBody ∧ e.reqSize = rlW.reqSize ∧
      e.respBody = rlW.respBody ∧ e.respSize = rlW.respSize ∧
      e.status = rlW.status ∧ e.durationMs = rlW.durationMs ∧
      e.error = rlW.error ∧
      gHeaderMMEq e.reqHeader rlW.reqHeader ∧
      gHeaderMMEq e.respHeader rlW.respHeader) :=
  ⟨by decide, by decide, by decide, by decide, by decide,
    log_roundtrip logDbEmpty rlW 0 (by decide) (by decide) (by decide)
      (by decide) (by decide)⟩

/-- Looking up a freshly appended row whose id is new finds that row. -/
theorem findRow_append_fresh (l : List Row) (x : Row)
    (h : ∀ r ∈ l, r.id ≠ x.id) : findRow (l ++ [x]) x.id = some x := by
  induction l with
  | nil => simp [findRow]
  | cons r rest ih =>
    rw [List.cons_append, findRow, if_neg (h r (List.mem_cons_self _ _))]
    exact ih (fun r' hr' => h r' (List.mem_cons_of_mem _ hr'))

/-- `Get` on the id of a freshly appended row reads that row back. -/
theorem get_after_append (db : AccountDB) (x : Row) (i : Int)
    (hfresh : ∀ r ∈ db.rows, r.id ≠ x.id) (hi : i = x.id) :
    Manager.get { rows := db.rows ++ [x], nextId := db.nextId + 1 } i =
      some (Row.toAccount x) := by
  subst hi
  rw [Manager.get]
  rw [show ({ rows := db.rows ++ [x], nextId := db.nextId + 1 } : AccountDB).rows =
    db.rows ++ [x] from rfl]
  rw [findRow_append_fresh db.rows x hfresh]
  rfl

/-- A successful `AddAPIKey` leaves a row that `Get` reads back with the
exhausted flag clear. -/
theorem addAPIKey_available (db : AccountDB) (n k b : String) (p : Int)
    (a : Account) (db' : AccountDB)
    (hfresh : ∀ r ∈ db.rows, r.id ≠ db.nextId)
    (h : Manager.addAPIKey db n k b p = .ok (a, db')) :
    ∃ acc, Manager.get db' a.id = some acc ∧ acc.exhausted = false := by
  rw [Manager.addAPIKey] at h
  by_cases hany : (db.rows.any (fun r => decide (r.apiKey = some k))) = true
  · rw [if_pos hany] at h
    cases h
  · rw [if_neg hany] at h
    simp only [Except.ok.injEq, Prod.mk.injEq] at h
    obtain ⟨ha, hdb⟩ := h
    subst ha
    subst hdb
    exact ⟨_, get_after_append db _ _ (fun r hr => hfresh r hr) rfl, rfl⟩

/-- A successful `AddChatGPT` leaves a row that `Get` reads back with the
exhausted flag clear. -/
theorem addChatGPT_available (db : AccountDB) (n rt aid : String) (p : Int)
    (a : Account) (db' : AccountDB)
    (hfresh : ∀ r ∈ db.rows, r.id ≠ db.nextId)
    (h : Manager.addChatGPT db n rt aid p = .ok (a, db')) :
    ∃ acc, Manager.get db' a.id = some acc ∧ acc.exhausted = false := by
  rw [Manager.addChatGPT] at h
  by_cases hany : (db.rows.any (fun r => decide (r.refreshToken = some rt))) = true
  · rw [if_pos hany] at h
    cases h
  · rw [if_neg hany] at h
    simp only [Except.ok.injEq, Prod.mk.injEq] at h
    obtain ⟨ha, hdb⟩ := h
    subst ha
    subst hdb
    exact ⟨_, get_after_append db _ _ (fun r hr => hfresh r hr) rfl, rfl⟩

/-- C10: every credential created by AddAPIKey, AddChatGPT or the import
starts available: immediately after a successful add, `Get` on the new id
returns an account with `exhausted = false`, for every name, key, base
URL, tenant id and priority; the pre-existing rows are assumed to carry
ids below the AUTOINCREMENT counter. -/
theorem add_starts_available (db : AccountDB) (n k b : String) (p : Int)
    (n2 rt aid : String) (p2 : Int) (cfg : AuthDotJson)
    (hfresh : ∀ r ∈ db.rows, r.id ≠ db.nextId) :
    (∀ a db', Manager.addAPIKey db n k b p = .ok (a, db') →
      ∃ acc, Manager.get db' a.id = some acc ∧ acc.exhausted = false) ∧
    (∀ a db', Manager.addChatGPT db n2 rt aid p2 = .ok (a, db') →
      ∃ acc, Manager.get db' a.id = some acc ∧ acc.exhausted = false) ∧
    (∀ a db', WebUI.importAuth db cfg = .ok (a, db') →
      ∃ acc, Manager.get db' a.id = some acc ∧ acc.exhausted = false) := by
  refine ⟨?_, ?_, ?_⟩
  · intro a db' h
    exact addAPIKey_available db n k b p a db' hfresh h
  · intro a db' h
    exact addChatGPT_available db n2 rt aid p2 a db' hfresh h
  · intro a db' h
    rw [WebUI.importAuth] at h
    by_cases hrt0 : cfg.refreshToken = ""
    · rw [if_pos hrt0] at h
      cases h
    · rw [if_neg hrt0] at h
      dsimp only at h
      cases hadd : Manager.addChatGPT db "imported" cfg.refreshToken cfg.accountID
          (match (Manager.list db).getLast? with
           | some a => a.priority + 1
           | none => 0) with
      | error e =>
        rw [hadd] at h
        cases h
      | ok pr =>
        rw [hadd] at h
        obtain ⟨a0, db0⟩ := pr
        simp only [Except.ok.injEq, Prod.mk.injEq] at h
        obtain ⟨ha, hdb⟩ := h
        subst ha
        subst hdb
        exact addChatGPT_available db "imported" cfg.refreshToken cfg.accountID
          _ a0 db0 hfresh hadd

/-- C10 (witness): the theorem applied to the empty pool. -/
theorem add_starts_available_witness :
    (∀ r ∈ dbEmpty.rows, r.id ≠ dbEmpty.nextId) ∧
    ((∀ a db', Manager.addAPIKey dbEmpty "a" "k" "" 5 = .ok (a, db') →
      ∃ acc, Manager.get db' a.id = some acc ∧ acc.exhausted = false) ∧
    (∀ a db', Manager.addChatGPT dbEmpty "c" "rt" "T" 7 = .ok (a, db') →
      ∃ acc, Manager.get db' a.id = some acc ∧ acc.exhausted = false) ∧
    (∀ a db', WebUI.importAuth dbEmpty cfgC8 = .ok (a, db') →
      ∃ acc, Manager.get db' a.id = some acc ∧ acc.exhausted = false)) :=
  ⟨by decide,
    add_starts_available dbEmpty "a" "k" "" 5 "c" "rt" "T" 7 cfgC8 (by decide)⟩
